import Mathlib

/-!
Verification of the holographic-avatar-system polar encoder and fan
transport protocol against their natural-language specification.

Shallow embedding of the Python sources:

* `src/services/polar-encoder/main.py` — `PolarEncoder` and its helpers.
  Python floats are modelled as exact rationals (`ℚ`).  The trigonometric
  lookup table built by `_build_lookup_table` is modelled over `ℝ`
  (`lookupX`/`lookupY`); the byte-producing pipeline (`encode_frame`,
  `_bilinear_sample`, `_ordered_dither`, `_pack_bits`, `encode_animation`,
  `_create_header`) is parametrised by the table contents, exactly as the
  Python object carries `self.lookup_x` / `self.lookup_y` as state.
* `src/integrations/led_hologram/fan_protocol.py` — `FanProtocol.upload_bin`.
* `src/services/fan-driver/main.py` — `TCPFanClient.upload_file`.
* `src/scripts/webcam_to_fan.py` — `WebcamToFan.send_frame_to_fan`.
-/

/-- Python `int(x)` applied to a numeric value: truncation toward zero. -/
def pyint (q : ℚ) : ℤ := if q < 0 then -(⌊-q⌋) else ⌊q⌋

/-- The ordered-dither table `DITHER_MATRIX` (polar-encoder `main.py`,
lines 25-41): 15 levels × 12 columns. -/
def DITHER_MATRIX : List (List ℕ) :=
  [[0, 0, 0, 0, 0, 0, 0, 0, 0, 0, 0, 0],
   [1, 0, 0, 0, 0, 0, 0, 0, 0, 0, 0, 0],
   [1, 0, 0, 0, 0, 0, 1, 0, 0, 0, 0, 0],
   [1, 0, 0, 0, 1, 0, 1, 0, 0, 0, 0, 0],
   [1, 0, 0, 0, 1, 0, 1, 0, 0, 0, 1, 0],
   [1, 0, 1, 0, 1, 0, 1, 0, 0, 0, 1, 0],
   [1, 0, 1, 0, 1, 0, 1, 0, 1, 0, 1, 0],
   [1, 0, 1, 0, 1, 0, 1, 1, 1, 0, 1, 0],
   [1, 0, 1, 1, 1, 0, 1, 1, 1, 0, 1, 0],
   [1, 0, 1, 1, 1, 0, 1, 1, 1, 0, 1, 1],
   [1, 0, 1, 1, 1, 1, 1, 1, 1, 0, 1, 1],
   [1, 1, 1, 1, 1, 1, 1, 1, 1, 0, 1, 1],
   [1, 1, 1, 1, 1, 1, 1, 1, 1, 1, 1, 1],
   [1, 1, 1, 1, 1, 1, 1, 1, 1, 1, 1, 1],
   [1, 1, 1, 1, 1, 1, 1, 1, 1, 1, 1, 1]]

/-- Video-range expansion step of `PolarEncoder._ordered_dither` (line 151):
`value = max(0, min(255, int((value - 16) * 255 / 224)))`. -/
def videoExpand (v : ℤ) : ℤ := max 0 (min 255 (pyint (((v : ℚ) - 16) * 255 / 224)))

/-- Dither-level step of `_ordered_dither` (lines 154-155):
`level = int(value / 17.01)` clamped to `[0, 14]`; the float literal `17.01`
is the exact rational `1701/100` (the quotients reached for inputs in
`[0, 255]` are far enough from integers that the double rounding of `17.01`
cannot move the truncation). -/
def ditherLevel (v : ℤ) : ℤ := max 0 (min 14 (pyint ((videoExpand v : ℚ) / (1701 / 100))))

/-- Row lookup `DITHER_MATRIX[level]`; `level` is already clamped to `[0, 14]`. -/
def ditherRow (lvl : ℤ) : List ℕ := DITHER_MATRIX.getD lvl.toNat []

/-- `PolarEncoder._ordered_dither` (lines 148-163).  Python `%` on ints of a
positive modulus is `Int.emod`. -/
def orderedDither (x y : ℚ) (v : ℤ) : ℕ :=
  let ix : ℤ := Int.emod (pyint x) 2
  let iy : ℤ := Int.emod (pyint y) 12
  let iy2 : ℤ := if ix = 1 then Int.emod (iy + 6) 12 else iy
  (ditherRow (ditherLevel v)).getD iy2.toNat 0

/-- A raster image: the square side length plus a total pixel function
`pix y x c` (row, column, channel in the BGR order of the OpenCV input).
Totality is harmless: all accesses the encoder performs are proved to stay
inside `[0, side)` (claim C7). -/
structure RawImage where
  side : ℕ
  pix : ℤ → ℤ → ℕ → ℕ

/-- Channel swap performed by `cv2.cvtColor(image, cv2.COLOR_BGR2RGB)`
(line 85): RGB channel `c` reads BGR channel `2 - c`. -/
def rgbAt (img : RawImage) (y x : ℤ) (c : ℕ) : ℕ := img.pix y x (2 - c)

/-- `PolarEncoder._bilinear_sample` (lines 120-146), one channel `c` of the
returned tuple. -/
def bilinearSample (img : RawImage) (x y : ℚ) (c : ℕ) : ℤ :=
  let w : ℤ := img.side
  let h : ℤ := img.side
  let x0 : ℤ := pyint x
  let y0 : ℤ := pyint y
  let x1 : ℤ := min (x0 + 1) (w - 1)
  let y1 : ℤ := min (y0 + 1) (h - 1)
  let xd : ℚ := x - x0
  let yd : ℚ := y - y0
  let p00 : ℚ := rgbAt img y0 x0 c
  let p01 : ℚ := rgbAt img y0 x1 c
  let p10 : ℚ := rgbAt img y1 x0 c
  let p11 : ℚ := rgbAt img y1 x1 c
  pyint (p00 * (1 - xd) * (1 - yd) + p01 * xd * (1 - yd) +
         p10 * (1 - xd) * yd + p11 * xd * yd)

/-- One byte of `_pack_bits` (lines 172-176): MSB-first packing of 8 bits.
The source accumulates with `byte |= (bits[i+j] & 1) << (7-j)`; the set bit
positions are disjoint, so `|` is addition and `& 1` is `% 2`. -/
def packByte (bits : List ℕ) : ℕ :=
  (List.range 8).foldl (fun b j => b + bits.getD j 0 % 2 * 2 ^ (7 - j)) 0

/-- Grouping loop of `_pack_bits` (lines 171-176): successive 8-bit groups.
The fuel argument only forces termination (each step drops 8 ≥ 1 elements);
`packBits` supplies `padded.length`, which is always enough. -/
def packBytesF : ℕ → List ℕ → List ℕ
  | 0, _ => []
  | _, [] => []
  | fuel + 1, bits => packByte (bits.take 8) :: packBytesF fuel (bits.drop 8)

/-- `PolarEncoder._pack_bits` (lines 165-178): zero-pad to a multiple of 8
(the `while` loop of lines 168-169), then pack MSB-first. -/
def packBits (bits : List ℕ) : List ℕ :=
  let padded := bits ++ List.replicate ((8 - bits.length % 8) % 8) 0
  packBytesF padded.length padded

/-- Bits of one ray in `encode_frame` (lines 93-112): for each radial index
the R, G, B dither bits at the precomputed coordinates.  The source fills a
zero array at `idx = led*3 … idx+2`, which is exactly this concatenation of
triples.  `lookX`/`lookY` stand for `self.lookup_x`/`self.lookup_y`; the
multiplication by `side - 1` is lines 97-98. -/
def rayBits (nLeds : ℕ) (lookX lookY : ℕ → ℕ → ℚ) (img : RawImage) (ray : ℕ) : List ℕ :=
  (List.range (nLeds / 2)).flatMap fun led =>
    let x : ℚ := lookX ray led * ((img.side : ℚ) - 1)
    let y : ℚ := lookY ray led * ((img.side : ℚ) - 1)
    [orderedDither x y (bilinearSample img x y 0),
     orderedDither x y (bilinearSample img x y 1),
     orderedDither x y (bilinearSample img x y 2)]

/-- `PolarEncoder.encode_frame` (lines 70-118): per-ray packed bytes,
concatenated over all rays. -/
def encodeFrame (nRays nLeds : ℕ) (lookX lookY : ℕ → ℕ → ℚ) (img : RawImage) : List ℕ :=
  ((List.range nRays).map fun ray => packBits (rayBits nLeds lookX lookY img ray)).flatten

/-- `FRAME_PADDING` (line 22): zero bytes appended after each frame. -/
def FRAME_PADDING : ℕ := 1288

/-- `PolarEncoder._create_header` (lines 204-220).  Bytes 0-4 are the magic
prefix; bytes 5 … 0xFFF come from `random.randint(0, 255)`, modelled by the
arbitrary `noise` function (reduced mod 256).  The `frameCount` argument is
accepted and ignored exactly as in the source. -/
def createHeader (frameCount : ℕ) (isGif : Bool) (noise : ℕ → ℕ) : List ℕ :=
  [0x00, 0x00, 0x00, if isGif then 0x3c else 0x01, 0x18] ++
    (List.range (0x1000 - 5)).map fun i => noise i % 256

/-- `PolarEncoder.encode_animation` (lines 180-202): header with
`is_gif=True`, then each encoded frame followed by `FRAME_PADDING` zeros. -/
def encodeAnimation (nRays nLeds : ℕ) (lookX lookY : ℕ → ℕ → ℚ) (noise : ℕ → ℕ)
    (frames : List RawImage) : List ℕ :=
  createHeader frames.length true noise ++
    (frames.map fun fr => encodeFrame nRays nLeds lookX lookY fr ++
      List.replicate FRAME_PADDING 0).flatten

/-- Angle of `_build_lookup_table` (line 61):
`phi = 2 * pi * (n_rays - ray) / n_rays`. -/
noncomputable def phiOf (nRays ray : ℕ) : ℝ := 2 * Real.pi * ((nRays : ℝ) - ray) / nRays

/-- Normalised radius of `_build_lookup_table` (line 65):
`r = (led + 0.5) / n_leds`. -/
def rhoOf (nLeds led : ℕ) : ℚ := ((led : ℚ) + 1 / 2) / nLeds

/-- `self.lookup_x[ray, led]` (line 67), with the exact-real semantics of the
float expression `0.5 + r * math.cos(phi)`. -/
noncomputable def lookupX (nRays nLeds ray led : ℕ) : ℝ :=
  1 / 2 + (rhoOf nLeds led : ℝ) * Real.cos (phiOf nRays ray)

/-- `self.lookup_y[ray, led]` (line 68). -/
noncomputable def lookupY (nRays nLeds ray led : ℕ) : ℝ :=
  1 / 2 + (rhoOf nLeds led : ℝ) * Real.sin (phiOf nRays ray)

/-- Image x-coordinate of a sample (line 97): `lookup_x[ray, led] * (w - 1)`. -/
noncomputable def sampleX (nRays nLeds ray led w : ℕ) : ℝ :=
  lookupX nRays nLeds ray led * ((w : ℝ) - 1)

/-- Image y-coordinate of a sample (line 98). -/
noncomputable def sampleY (nRays nLeds ray led w : ℕ) : ℝ :=
  lookupY nRays nLeds ray led * ((w : ℝ) - 1)

/-- Python `int()` truncation on the exact-real sample coordinate, as used by
`_bilinear_sample` for `x0`/`y0` and by `_ordered_dither` for the lattice. -/
noncomputable def realTrunc (t : ℝ) : ℤ := if t < 0 then -(⌊-t⌋) else ⌊t⌋

/-- Protocol packet header `d3e0c9ba02014dd8` (`fan_protocol.py` line 32,
`fan-driver/main.py` line 26, `webcam_to_fan.py` line 26). -/
def HEADER : List ℕ := [0xd3, 0xe0, 0xc9, 0xba, 0x02, 0x01, 0x4d, 0xd8]

/-- Type tag `b"0AgQ"` (ASCII bytes). -/
def TYPE_NAME : List ℕ := [0x30, 0x41, 0x67, 0x51]

/-- Type tag `b"1GnH"` (ASCII bytes). -/
def TYPE_DATA : List ℕ := [0x31, 0x47, 0x6e, 0x48]

/-- Type tag `b"1AfF"` (ASCII bytes). -/
def TYPE_END : List ℕ := [0x31, 0x41, 0x66, 0x46]

/-- Packet trailer `bfb5d2a2`. -/
def TRAILER : List ℕ := [0xbf, 0xb5, 0xd2, 0xa2]

/-- `PACKET_SIZE = 1460` (`fan_protocol.py` line 28). -/
def PACKET_SIZE : ℕ := 1460

/-- Python `str.encode()` as the byte form of each character; on the ASCII
filenames of this protocol this agrees with UTF-8. -/
def strBytes (s : List Char) : List ℕ := s.map Char.toNat

/-- The four characters of the suffix `".bin"`. -/
def dotBin : List Char := ['.', 'b', 'i', 'n']

/-- Python `filename.endswith(".bin")` on the code-point list (for strings
shorter than 4 the natural subtraction makes the comparison fail, as in
Python). -/
def endsWithBin (s : List Char) : Bool := decide (s.drop (s.length - 4) = dotBin)

/-- Filename bytes of `FanProtocol.upload_bin` (lines 82-85): append `.bin`
when missing, encode, truncate to 99 bytes. -/
def fpFilenameBytes (s : List Char) : List ℕ :=
  (strBytes (if endsWithBin s then s else s ++ dotBin)).take 99

/-- Python `struct.pack(">I", n)`: 4-byte big-endian (raises for
`n ≥ 2^32`, so it is meaningful only below that bound). -/
def be32 (n : ℕ) : List ℕ := [n / 2 ^ 24 % 256, n / 2 ^ 16 % 256, n / 2 ^ 8 % 256, n % 256]

/-- DATA payload size computed at `fan_protocol.py` line 101 (and
`fan-driver/main.py` line 118):
`PACKET_SIZE - len(HEADER) - len(TYPE_DATA) - len(TRAILER)`. -/
def payloadSize : ℕ := PACKET_SIZE - HEADER.length - TYPE_DATA.length - TRAILER.length

/-- Upload chunking loop (`fan_protocol.py` lines 103-118): slice
`payloadSize` bytes at a time, zero-padding a short final chunk (lines
110-111).  The fuel argument only forces termination (each step drops
`payloadSize ≥ 1` elements); `dataChunks` supplies `data.length`, which is
always enough. -/
def dataChunksF : ℕ → List ℕ → List (List ℕ)
  | 0, _ => []
  | _, [] => []
  | fuel + 1, data =>
    (data.take payloadSize ++
      List.replicate (payloadSize - (data.take payloadSize).length) 0) ::
      dataChunksF fuel (data.drop payloadSize)

/-- The payload chunks of one upload, in order. -/
def dataChunks (data : List ℕ) : List (List ℕ) := dataChunksF data.length data

/-- One DATA packet (line 113): `HEADER + TYPE_DATA + chunk + TRAILER`. -/
def dataPacket (chunk : List ℕ) : List ℕ := HEADER ++ TYPE_DATA ++ chunk ++ TRAILER

/-- The END packet (line 124): `HEADER + TYPE_END + TRAILER`, no body. -/
def endPacket : List ℕ := HEADER ++ TYPE_END ++ TRAILER

/-- NAME packet of `FanProtocol.upload_bin` (lines 89-95). -/
def namePacket (s : List Char) (dataLen : ℕ) : List ℕ :=
  HEADER ++ TYPE_NAME ++ be32 dataLen ++ fpFilenameBytes s ++ TRAILER

/-- The byte strings passed to `send` by `FanProtocol.upload_bin`
(lines 80-127), in order: NAME, the DATA packets, END. -/
def uploadBinPackets (s : List Char) (data : List ℕ) : List (List ℕ) :=
  namePacket s data.length :: ((dataChunks data).map dataPacket ++ [endPacket])

/-- Filename bytes of `TCPFanClient.upload_file` (`fan-driver/main.py`
line 102): truncation to 99 bytes only — no `.bin` appending. -/
def fdFilenameBytes (s : List Char) : List ℕ := (strBytes s).take 99

/-- NAME packet of `TCPFanClient.upload_file` (lines 104-112). -/
def fdNamePacket (s : List Char) (dataLen : ℕ) : List ℕ :=
  HEADER ++ TYPE_NAME ++ be32 dataLen ++ fdFilenameBytes s ++ TRAILER

/-- The byte strings passed to `send` by `TCPFanClient.upload_file`
(lines 84-139), in order. -/
def uploadFilePackets (s : List Char) (data : List ℕ) : List (List ℕ) :=
  fdNamePacket s data.length :: ((dataChunks data).map dataPacket ++ [endPacket])

/-- Type tag of a framed packet: bytes 8-11 (after the 8-byte header). -/
def packetType (p : List ℕ) : List ℕ := (p.drop 8).take 4

/-- Chunk `i` of `WebcamToFan.send_frame_to_fan` (`webcam_to_fan.py`
line 196): `polar_data[i*1024 : (i+1)*1024]`. -/
def streamChunk (d : List ℕ) (i : ℕ) : List ℕ := (d.drop (i * 1024)).take 1024

/-- `total_chunks` (line 193): `(len(polar_data) + chunk_size - 1) // chunk_size`. -/
def totalChunks (d : List ℕ) : ℕ := (d.length + 1024 - 1) / 1024

/-- Python `struct.pack('<H', n)`: 2-byte little-endian. -/
def le16 (n : ℕ) : List ℕ := [n % 256, n / 256 % 256]

/-- Streaming packet `i` (lines 199-206): header, DATA tag, little-endian
chunk index, little-endian chunk size, chunk body, trailer. -/
def streamPacket (d : List ℕ) (i : ℕ) : List ℕ :=
  HEADER ++ TYPE_DATA ++ le16 i ++ le16 (streamChunk d i).length ++ streamChunk d i ++ TRAILER

/-- All packets of one streamed frame, in send order (loop of lines 195-209). -/
def streamPackets (d : List ℕ) : List (List ℕ) :=
  (List.range (totalChunks d)).map (streamPacket d)

/-- Sleep inserted after each streaming send (line 209):
`time.sleep(DELAY_BETWEEN_PACKETS / total_chunks)` with
`DELAY_BETWEEN_PACKETS = 0.03` (line 23), i.e. `3/100` seconds. -/
def streamInterDelay (d : List ℕ) : ℚ := 3 / 100 / (totalChunks d : ℚ)

/-- Exact rational contents of the lookup table at the 4-ray, 8-LED
configuration, where every angle `phi` is a multiple of `π/2` and the
trigonometric values are exactly 0, 1 or -1 (theorem `look48_eq` below
proves agreement with `lookupX`/`lookupY`). -/
def lookX48 (ray led : ℕ) : ℚ :=
  if ray = 0 then 1 / 2 + rhoOf 8 led else if ray = 2 then 1 / 2 - rhoOf 8 led else 1 / 2

/-- Companion of `lookX48` for the y-coordinates. -/
def lookY48 (ray led : ℕ) : ℚ :=
  if ray = 1 then 1 / 2 - rhoOf 8 led else if ray = 3 then 1 / 2 + rhoOf 8 led else 1 / 2

/-- Square raster that is white (255 on all three channels) on the top half
of its rows and black on the bottom half. -/
def topWhiteImage (side : ℕ) : RawImage :=
  ⟨side, fun y _ _ => if y < (side : ℤ) / 2 then 255 else 0⟩

/-- Number of set bits in one byte value. -/
def popcount8 (n : ℕ) : ℕ :=
  n % 2 + n / 2 % 2 + n / 4 % 2 + n / 8 % 2 +
    n / 16 % 2 + n / 32 % 2 + n / 64 % 2 + n / 128 % 2

/-- Total number of set bits in a byte string. -/
def bitSum (bytes : List ℕ) : ℕ := (bytes.map popcount8).sum

/-- Length of the grouping loop output: one byte per 8 (padded) bits. -/
theorem packBytesF_length (fuel : ℕ) : ∀ bits : List ℕ, bits.length ≤ fuel →
    (packBytesF fuel bits).length = (bits.length + 7) / 8 := by
  induction fuel with
  | zero =>
    intro bits h
    have : bits = [] := List.eq_nil_of_length_eq_zero (Nat.le_zero.mp h)
    subst this
    simp [packBytesF]
  | succ n ih =>
    intro bits h
    cases bits with
    | nil => simp [packBytesF]
    | cons b rest =>
      have hd : ((b :: rest).drop 8).length ≤ n := by
        simp only [List.length_drop] at *
        simp only [List.length_cons] at h ⊢
        omega
      have := ih ((b :: rest).drop 8) hd
      simp only [packBytesF, List.length_cons, this, List.length_drop]
      omega

/-- `_pack_bits` produces `⌈n/8⌉` bytes from `n` bits. -/
theorem packBits_length (bits : List ℕ) : (packBits bits).length = (bits.length + 7) / 8 := by
  unfold packBits
  rw [packBytesF_length _ _ (le_refl _)]
  simp only [List.length_append, List.length_replicate]
  omega

/-- Length of a bind whose function always returns `k` elements. -/
theorem length_bind_const {α β : Type} (l : List α) (f : α → List β) (k : ℕ)
    (h : ∀ a, (f a).length = k) : (l.flatMap f).length = k * l.length := by
  induction l with
  | nil => simp
  | cons a t ih =>
    simp only [List.flatMap_cons, List.length_append, h, ih, List.length_cons, Nat.mul_succ]
    omega

/-- Each ray contributes `3 * (n_leds / 2)` bits. -/
theorem rayBits_length (nLeds : ℕ) (lookX lookY : ℕ → ℕ → ℚ) (img : RawImage) (ray : ℕ) :
    (rayBits nLeds lookX lookY img ray).length = 3 * (nLeds / 2) := by
  unfold rayBits
  rw [show 3 * (nLeds / 2) = 3 * (List.range (nLeds / 2)).length by simp]
  apply length_bind_const
  intro a
  rfl

/-- Length of a joined map whose elements all have length `k`. -/
theorem length_join_const {α : Type} (l : List α) (f : α → List ℕ) (k : ℕ)
    (h : ∀ a, (f a).length = k) : ((l.map f).flatten).length = k * l.length := by
  induction l with
  | nil => simp
  | cons a t ih =>
    simp only [List.map_cons, List.flatten_cons, List.length_append, h, ih, List.length_cons,
      Nat.mul_succ]
    omega

/-- General shape of one encoded frame: `n_rays` rays of `⌈3(n_leds/2)/8⌉`
bytes each. -/
theorem encodeFrame_length (nRays nLeds : ℕ) (lookX lookY : ℕ → ℕ → ℚ) (img : RawImage) :
    (encodeFrame nRays nLeds lookX lookY img).length =
      nRays * ((3 * (nLeds / 2) + 7) / 8) := by
  unfold encodeFrame
  rw [length_join_const _ _ ((3 * (nLeds / 2) + 7) / 8)
    (fun ray => by rw [packBits_length, rayBits_length])]
  simp [Nat.mul_comm]

/-- The header is always exactly `0x1000` bytes. -/
theorem createHeader_length (frameCount : ℕ) (isGif : Bool) (noise : ℕ → ℕ) :
    (createHeader frameCount isGif noise).length = 0x1000 := by
  simp [createHeader]

/-- Byte length of one animation block (frame plus inter-frame padding) at
the default dimensions. -/
theorem frameBlock_length (lookX lookY : ℕ → ℕ → ℚ) (img : RawImage) :
    (encodeFrame 2700 224 lookX lookY img ++ List.replicate FRAME_PADDING 0).length =
      113400 + 1288 := by
  rw [List.length_append, encodeFrame_length, List.length_replicate, FRAME_PADDING]

/-- General length of the animation container. -/
theorem encodeAnimation_length (lookX lookY : ℕ → ℕ → ℚ) (noise : ℕ → ℕ)
    (frames : List RawImage) :
    (encodeAnimation 2700 224 lookX lookY noise frames).length =
      0x1000 + frames.length * (113400 + 1288) := by
  unfold encodeAnimation
  rw [List.length_append, createHeader_length,
    length_join_const _ _ (113400 + 1288) (fun fr => frameBlock_length lookX lookY fr)]
  omega

/-- C4: for every square input raster (any side length, any pixel contents,
any lookup-table state), `encode_frame` at the default `n_rays = 2700`,
`n_leds = 224` returns exactly `n_rays × (n_leds/2) × 3 / 8 = 113400`
bytes. -/
theorem c4_encode_frame_length (lookX lookY : ℕ → ℕ → ℚ) (img : RawImage) :
    (encodeFrame 2700 224 lookX lookY img).length = 2700 * ((224 / 2) * 3 / 8) ∧
    2700 * ((224 / 2) * 3 / 8) = 113400 := by
  constructor
  · rw [encodeFrame_length]
  · norm_num

/-- C5: for every list of `N` frames the container returned by
`encode_animation` at default dimensions has length exactly
`0x1000 + N × (113400 + 1288)`: a `0x1000`-byte header followed, for each
frame, by the 113400-byte polar payload and 1288 zero bytes of padding. -/
theorem c5_encode_animation_size (lookX lookY : ℕ → ℕ → ℚ) (noise : ℕ → ℕ)
    (frames : List RawImage) :
    (encodeAnimation 2700 224 lookX lookY noise frames).length =
      0x1000 + frames.length * (113400 + 1288) ∧
    (createHeader frames.length true noise).length = 0x1000 ∧
    encodeAnimation 2700 224 lookX lookY noise frames =
      createHeader frames.length true noise ++
        (frames.map fun fr => encodeFrame 2700 224 lookX lookY fr ++
          List.replicate 1288 0).flatten := by
  refine ⟨encodeAnimation_length lookX lookY noise frames,
    createHeader_length frames.length true noise, rfl⟩

/-- C10: every container produced by `encode_animation` — including a
single-frame list — carries the animation kind byte `0x3C` at offset 3
(`_create_header` is only ever called with `is_gif=True`), never the still
kind `0x01`. -/
theorem c10_animation_kind_byte (lookX lookY : ℕ → ℕ → ℚ) (noise : ℕ → ℕ)
    (frames : List RawImage) :
    (encodeAnimation 2700 224 lookX lookY noise frames).getD 3 0 = 0x3c ∧
    (createHeader frames.length true noise).getD 3 0 = 0x3c ∧
    (0x3c : ℕ) ≠ 0x01 := by
  refine ⟨?_, rfl, by decide⟩
  rfl

/-- C8: under the video-range expansion and level computation of
`_ordered_dither`, input channel value 16 maps to dither level 0 and input
channel value 240 maps to dither level 14. -/
theorem c8_video_range_levels :
    videoExpand 16 = 0 ∧ ditherLevel 16 = 0 ∧
    videoExpand 240 = 255 ∧ ditherLevel 240 = 14 := by
  with_unfolding_all decide

/-- Truncation toward zero is monotone. -/
theorem pyint_mono {a b : ℚ} (h : a ≤ b) : pyint a ≤ pyint b := by
  unfold pyint
  by_cases ha : a < 0 <;> by_cases hb : b < 0 <;> simp only [ha, hb, if_true, if_false, ite_true, ite_false]
  · have : ⌊-b⌋ ≤ ⌊-a⌋ := Int.floor_le_floor (by linarith)
    omega
  · have h1 : (0 : ℤ) ≤ ⌊-a⌋ := Int.floor_nonneg.mpr (by linarith)
    have h2 : (0 : ℤ) ≤ ⌊b⌋ := Int.floor_nonneg.mpr (by linarith)
    omega
  · exact absurd (lt_of_le_of_lt h hb) ha
  · exact Int.floor_le_floor h

/-- The video-range expansion is monotone in the channel value. -/
theorem videoExpand_mono {v1 v2 : ℤ} (h : v1 ≤ v2) : videoExpand v1 ≤ videoExpand v2 := by
  unfold videoExpand
  have hq : ((v1 : ℚ) - 16) * 255 / 224 ≤ ((v2 : ℚ) - 16) * 255 / 224 := by
    have : (v1 : ℚ) ≤ (v2 : ℚ) := by exact_mod_cast h
    linarith
  have := pyint_mono hq
  omega

/-- Bounds of the expanded value. -/
theorem videoExpand_bounds (v : ℤ) : 0 ≤ videoExpand v ∧ videoExpand v ≤ 255 := by
  unfold videoExpand
  omega

/-- The dither level is monotone in the channel value. -/
theorem ditherLevel_mono {v1 v2 : ℤ} (h : v1 ≤ v2) : ditherLevel v1 ≤ ditherLevel v2 := by
  unfold ditherLevel
  have hq : (videoExpand v1 : ℚ) / (1701 / 100) ≤ (videoExpand v2 : ℚ) / (1701 / 100) := by
    have : (videoExpand v1 : ℚ) ≤ (videoExpand v2 : ℚ) := by
      exact_mod_cast videoExpand_mono h
    linarith
  have := pyint_mono hq
  omega

/-- Bounds of the dither level. -/
theorem ditherLevel_bounds (v : ℤ) : 0 ≤ ditherLevel v ∧ ditherLevel v ≤ 14 := by
  unfold ditherLevel
  omega

/-- Row sums of `DITHER_MATRIX` are monotone in the level. -/
theorem ditherMatrix_rowSum_mono :
    ∀ a < 15, ∀ b < 15, a ≤ b →
      (DITHER_MATRIX.getD a []).sum ≤ (DITHER_MATRIX.getD b []).sum := by
  decide

/-- C9: for any two 8-bit channel values `v1 < v2`, the sum over the whole
dither-matrix row selected by `_ordered_dither`'s level computation is
non-decreasing, independently of the lattice position. -/
theorem c9_dither_row_sum_monotone (v1 v2 : ℤ) (h0 : 0 ≤ v1) (h12 : v1 < v2)
    (h255 : v2 ≤ 255) :
    (ditherRow (ditherLevel v1)).sum ≤ (ditherRow (ditherLevel v2)).sum := by
  have hm := ditherLevel_mono (le_of_lt h12)
  have hb1 := ditherLevel_bounds v1
  have hb2 := ditherLevel_bounds v2
  unfold ditherRow
  exact ditherMatrix_rowSum_mono (ditherLevel v1).toNat (by omega)
    (ditherLevel v2).toNat (by omega) (by omega)

/-- C9 witness at channel values 16 < 240. -/
theorem c9_dither_row_sum_monotone_witness :
    (ditherRow (ditherLevel 16)).sum ≤ (ditherRow (ditherLevel 240)).sum :=
  c9_dither_row_sum_monotone 16 240 (by decide) (by decide) (by decide)

/-- The DATA payload size computed by the source constants is 1444 bytes
(1460 minus 8 header bytes, 4 tag bytes, 4 trailer bytes) — not 1436. -/
theorem payloadSize_eq : payloadSize = 1444 := rfl

/-- The chunking loop on empty data produces no chunks, for any fuel. -/
theorem dataChunksF_nil (fuel : ℕ) : dataChunksF fuel [] = [] := by
  cases fuel <;> rfl

/-- Unfolding equation of the chunking loop on non-empty data. -/
theorem dataChunksF_cons (n b : ℕ) (rest : List ℕ) :
    dataChunksF (n + 1) (b :: rest) =
      ((b :: rest).take payloadSize ++
        List.replicate (payloadSize - ((b :: rest).take payloadSize).length) 0) ::
        dataChunksF n ((b :: rest).drop payloadSize) := rfl

/-- Number of chunks: `⌈len / payloadSize⌉`. -/
theorem dataChunksF_length (fuel : ℕ) : ∀ data : List ℕ, data.length ≤ fuel →
    (dataChunksF fuel data).length = (data.length + payloadSize - 1) / payloadSize := by
  induction fuel with
  | zero =>
    intro data h
    have : data = [] := List.eq_nil_of_length_eq_zero (Nat.le_zero.mp h)
    subst this
    simp [dataChunksF, payloadSize_eq]
  | succ n ih =>
    intro data h
    cases data with
    | nil => simp [dataChunksF, payloadSize_eq]
    | cons b rest =>
      have hd : ((b :: rest).drop payloadSize).length ≤ n := by
        simp only [List.length_drop, List.length_cons] at h ⊢
        have hp : payloadSize = 1444 := rfl
        omega
      have hih := ih ((b :: rest).drop payloadSize) hd
      rw [dataChunksF_cons, List.length_cons, hih]
      simp only [List.length_drop, List.length_cons, payloadSize_eq]
      omega

/-- Every chunk — the zero-padded final one included — has exactly
`payloadSize` bytes. -/
theorem dataChunksF_mem_length (fuel : ℕ) : ∀ data : List ℕ,
    ∀ c ∈ dataChunksF fuel data, c.length = payloadSize := by
  induction fuel with
  | zero =>
    intro data c hc
    simp [dataChunksF] at hc
  | succ n ih =>
    intro data c hc
    cases data with
    | nil => simp [dataChunksF] at hc
    | cons b rest =>
      rw [dataChunksF_cons] at hc
      rcases List.mem_cons.mp hc with hc | hc
      · subst hc
        simp only [List.length_append, List.length_replicate, List.length_take,
          List.length_cons]
        have hp : payloadSize = 1444 := rfl
        omega
      · exact ih _ c hc

/-- Concatenating all chunks recovers the data followed by the zero
padding of the final chunk. -/
theorem dataChunksF_flatten (fuel : ℕ) : ∀ data : List ℕ, data.length ≤ fuel →
    (dataChunksF fuel data).flatten =
      data ++ List.replicate ((dataChunksF fuel data).length * payloadSize - data.length) 0 := by
  induction fuel with
  | zero =>
    intro data h
    have : data = [] := List.eq_nil_of_length_eq_zero (Nat.le_zero.mp h)
    subst this
    simp [dataChunksF]
  | succ n ih =>
    intro data h
    cases data with
    | nil => simp [dataChunksF]
    | cons b rest =>
      have hp : payloadSize = 1444 := rfl
      have hd : ((b :: rest).drop payloadSize).length ≤ n := by
        simp only [List.length_drop, List.length_cons] at h ⊢
        omega
      by_cases hlen : (b :: rest).length ≤ payloadSize
      · have hdrop : (b :: rest).drop payloadSize = [] := List.drop_eq_nil_of_le hlen
        rw [dataChunksF_cons, hdrop, dataChunksF_nil]
        have htake : (b :: rest).take payloadSize = b :: rest :=
          List.take_of_length_le hlen
        rw [htake]
        simp only [List.flatten_cons, List.flatten_nil, List.append_nil, List.length_cons,
          List.length_nil]
        have hcnt : payloadSize - (rest.length + 1) = (0 + 1) * payloadSize - (rest.length + 1) := by
          omega
        rw [← hcnt]
      · push_neg at hlen
        have htakelen : ((b :: rest).take payloadSize).length = payloadSize := by
          simp only [List.length_take]
          omega
        rw [dataChunksF_cons]
        rw [htakelen]
        rw [Nat.sub_self, List.replicate_zero, List.append_nil]
        rw [List.flatten_cons, List.length_cons]
        rw [ih ((b :: rest).drop payloadSize) hd]
        rw [← List.append_assoc, List.take_append_drop]
        simp only [List.length_cons] at hlen
        have hcnt : (dataChunksF n ((b :: rest).drop payloadSize)).length * payloadSize -
            ((b :: rest).drop payloadSize).length
            = ((dataChunksF n ((b :: rest).drop payloadSize)).length + 1) * payloadSize -
              (b :: rest).length := by
          rw [Nat.succ_mul, List.length_drop]
          simp only [List.length_cons]
          omega
        rw [hcnt]


/-- C1 counterexample: for the 1437-byte payload the upload loop emits a
single DATA packet whose padded payload is 1444 bytes, while the claimed
framing (`1436`-byte payloads, `⌈len/1436⌉` packets) would require two
packets of 1436 payload bytes each; `1460 - (8+4+4)` is 1444, not 1436. -/
theorem c1_payload_1436_counterexample :
    (dataChunks (List.replicate 1437 0)).length = 1 ∧
    (1437 + 1436 - 1) / 1436 = 2 ∧
    ((dataChunks (List.replicate 1437 0)).headD []).length = 1444 ∧
    payloadSize = 1444 ∧
    (1444 : ℕ) ≠ 1436 := by
  have h1 : (dataChunks (List.replicate 1437 0)).length = 1 := by
    rw [dataChunks, dataChunksF_length _ _ (le_refl _)]
    rw [List.length_replicate, payloadSize_eq]
  refine ⟨h1, by norm_num, ?_, rfl, by decide⟩
  have hne : dataChunks (List.replicate 1437 0) ≠ [] := by
    intro hnil
    rw [hnil] at h1
    simp at h1
  have hmem : (dataChunks (List.replicate 1437 0)).headD [] ∈
      dataChunks (List.replicate 1437 0) := by
    cases hds : dataChunks (List.replicate 1437 0) with
    | nil => exact absurd hds hne
    | cons c t => simp
  exact dataChunksF_mem_length _ _ _ hmem

/-- C1 (amended): each DATA packet of the upload carries a fixed
`payloadSize = 1444`-byte payload — the 1460-byte wire budget minus the 16
bytes of framing (8 header + 4 tag + 4 trailer) — the final chunk being
zero-padded to that full size, so the stream contains `⌈len/1444⌉` DATA
packets, each exactly 1460 bytes on the wire. -/
theorem c1_upload_framing (data : List ℕ) :
    payloadSize = PACKET_SIZE - (HEADER.length + TYPE_DATA.length + TRAILER.length) ∧
    payloadSize = 1444 ∧
    (dataChunks data).length = (data.length + 1444 - 1) / 1444 ∧
    (∀ c ∈ dataChunks data, c.length = 1444) ∧
    (∀ c ∈ dataChunks data, (dataPacket c).length = 1460) ∧
    (dataChunks data).flatten =
      data ++ List.replicate ((dataChunks data).length * 1444 - data.length) 0 := by
  have hp : payloadSize = 1444 := rfl
  refine ⟨rfl, rfl, ?_, ?_, ?_, ?_⟩
  · rw [dataChunks, dataChunksF_length _ _ (le_refl _), hp]
  · intro c hc
    rw [← hp]
    exact dataChunksF_mem_length _ _ c hc
  · intro c hc
    have := dataChunksF_mem_length _ _ c hc
    simp only [dataPacket, List.length_append, this, hp, HEADER, TYPE_DATA, TRAILER]
    rfl
  · rw [← hp, dataChunks]
    exact dataChunksF_flatten _ _ (le_refl _)

/-- C1 witness: the amended framing instantiated on a 3-byte payload. -/
theorem c1_upload_framing_witness :
    (dataChunks (List.replicate 3 7)).length = (3 + 1444 - 1) / 1444 ∧
    (∀ c ∈ dataChunks (List.replicate 3 7), (dataPacket c).length = 1460) :=
  ⟨by simpa using (c1_upload_framing (List.replicate 3 7)).2.2.1,
   (c1_upload_framing (List.replicate 3 7)).2.2.2.2.1⟩

/-- The NAME packet carries the NAME type tag at bytes 8-11. -/
theorem packetType_namePacket (s : List Char) (n : ℕ) :
    packetType (namePacket s n) = TYPE_NAME := rfl

/-- The fan-driver NAME packet carries the NAME type tag at bytes 8-11. -/
theorem packetType_fdNamePacket (s : List Char) (n : ℕ) :
    packetType (fdNamePacket s n) = TYPE_NAME := rfl

/-- Every DATA packet carries the DATA type tag at bytes 8-11. -/
theorem packetType_dataPacket (c : List ℕ) : packetType (dataPacket c) = TYPE_DATA := rfl

/-- The END packet carries the END type tag. -/
theorem packetType_endPacket : packetType endPacket = TYPE_END := rfl

/-- Decoding the 4 big-endian bytes recovers the length. -/
theorem be32_decode (n : ℕ) (h : n < 2 ^ 32) :
    (be32 n).foldl (fun a b => a * 256 + b) 0 = n := by
  show (((0 * 256 + n / 2 ^ 24 % 256) * 256 + n / 2 ^ 16 % 256) * 256 + n / 2 ^ 8 % 256) *
      256 + n % 256 = n
  omega

/-- Exactly one packet of an upload stream carries the NAME tag. -/
theorem uploadBin_name_count (s : List Char) (data : List ℕ) :
    ((uploadBinPackets s data).countP fun p => decide (packetType p = TYPE_NAME)) = 1 := by
  unfold uploadBinPackets
  rw [List.countP_cons_of_pos _ _ (by simp [packetType_namePacket]),
    List.countP_append]
  have h1 : ((dataChunks data).map dataPacket).countP
      (fun p => decide (packetType p = TYPE_NAME)) = 0 := by
    rw [List.countP_eq_zero]
    intro p hp
    rcases List.mem_map.mp hp with ⟨c, _, rfl⟩
    simp [packetType_dataPacket, TYPE_DATA, TYPE_NAME]
  have h2 : ([endPacket].countP fun p => decide (packetType p = TYPE_NAME)) = 0 := by
    simp [packetType_endPacket, TYPE_END, TYPE_NAME, List.countP_cons]
  rw [h1, h2]

/-- The last packet of an upload stream is the END packet. -/
theorem uploadBin_last (s : List Char) (data : List ℕ) :
    (uploadBinPackets s data).getLast? = some endPacket := by
  unfold uploadBinPackets
  rw [← List.cons_append, List.getLast?_concat]

/-- C6 counterexample: `TCPFanClient.upload_file` does not append the
`.bin` extension — for the filename `"x"` its NAME packet carries the single
byte `0x78`, not the five bytes of `"x.bin"` that `FanProtocol.upload_bin`
produces for the same name. -/
theorem c6_fan_driver_no_bin_append :
    fdFilenameBytes ['x'] = [120] ∧
    fpFilenameBytes ['x'] = [120, 46, 98, 105, 110] ∧
    (uploadFilePackets ['x'] [0]).head? =
      some (HEADER ++ TYPE_NAME ++ be32 1 ++ [120] ++ TRAILER) ∧
    ([120] : List ℕ) ≠ [120, 46, 98, 105, 110] := by
  refine ⟨rfl, rfl, rfl, by decide⟩

/-- C6 (amended): in `FanProtocol.upload_bin` exactly one NAME packet is
sent first, its 4-byte length field is the big-endian byte count of the
payload before padding, the filename has `.bin` appended when absent and is
then truncated to 99 bytes, and the upload ends with a single END packet
whose body is empty; `TCPFanClient.upload_file` behaves identically except
that it truncates the filename without appending `.bin`. -/
theorem c6_upload_name_end_structure (s : List Char) (data : List ℕ)
    (h : data.length < 2 ^ 32) :
    (uploadBinPackets s data).head? = some (namePacket s data.length) ∧
    packetType (namePacket s data.length) = TYPE_NAME ∧
    ((uploadBinPackets s data).countP fun p => decide (packetType p = TYPE_NAME)) = 1 ∧
    ((namePacket s data.length).drop 12).take 4 = be32 data.length ∧
    (be32 data.length).foldl (fun a b => a * 256 + b) 0 = data.length ∧
    fpFilenameBytes s = (strBytes (if endsWithBin s then s else s ++ dotBin)).take 99 ∧
    (uploadBinPackets s data).getLast? = some endPacket ∧
    endPacket = HEADER ++ TYPE_END ++ TRAILER ∧
    endPacket.length = HEADER.length + TYPE_END.length + TRAILER.length ∧
    (uploadFilePackets s data).head? = some (fdNamePacket s data.length) ∧
    fdFilenameBytes s = (strBytes s).take 99 := by
  refine ⟨rfl, rfl, uploadBin_name_count s data, ?_, be32_decode _ h, rfl,
    uploadBin_last s data, rfl, rfl, rfl, rfl⟩
  show (((HEADER ++ (TYPE_NAME ++ (be32 data.length ++ (fpFilenameBytes s ++ TRAILER)))).drop 12).take 4) = be32 data.length
  rw [show (12 : ℕ) = (HEADER ++ TYPE_NAME).length from rfl]
  rw [show HEADER ++ (TYPE_NAME ++ (be32 data.length ++ (fpFilenameBytes s ++ TRAILER))) =
      (HEADER ++ TYPE_NAME) ++ (be32 data.length ++ (fpFilenameBytes s ++ TRAILER)) by
    simp [List.append_assoc]]
  rw [List.drop_left]
  rw [show (4 : ℕ) = (be32 data.length).length from rfl]
  rw [show be32 data.length ++ (fpFilenameBytes s ++ TRAILER) =
      (be32 data.length) ++ (fpFilenameBytes s ++ TRAILER) from rfl]
  exact List.take_left _ _

/-- C6 witness: the amended structure instantiated at filename `"a"` and a
3-byte payload. -/
theorem c6_upload_name_end_structure_witness :
    (uploadBinPackets ['a'] [1, 2, 3]).head? = some (namePacket ['a'] 3) ∧
    (uploadBinPackets ['a'] [1, 2, 3]).getLast? = some endPacket :=
  ⟨(c6_upload_name_end_structure ['a'] [1, 2, 3] (by decide)).1,
   (c6_upload_name_end_structure ['a'] [1, 2, 3] (by decide)).2.2.2.2.2.2.1⟩

/-- Shifting the chunk index by one is chunking of the 1024-dropped data. -/
theorem streamChunk_succ (d : List ℕ) (i : ℕ) :
    streamChunk d (i + 1) = streamChunk (d.drop 1024) i := by
  unfold streamChunk
  rw [List.drop_drop, Nat.succ_mul, Nat.add_comm (i * 1024) 1024]

/-- Chunk `i` has `min 1024 (len - 1024 i)` bytes. -/
theorem streamChunk_length (d : List ℕ) (i : ℕ) :
    (streamChunk d i).length = min 1024 (d.length - 1024 * i) := by
  simp [streamChunk, Nat.mul_comm]

/-- Concatenating the first `k` chunks yields the first `1024 k` bytes. -/
theorem streamChunks_flatten (k : ℕ) : ∀ d : List ℕ,
    ((List.range k).map (streamChunk d)).flatten = d.take (1024 * k) := by
  induction k with
  | zero => intro d; simp
  | succ n ih =>
    intro d
    rw [List.range_succ_eq_map, List.map_cons, List.map_map, List.flatten_cons]
    have h0 : streamChunk d 0 = d.take 1024 := by
      simp [streamChunk]
    have hsh : (streamChunk d) ∘ Nat.succ = streamChunk (d.drop 1024) := by
      funext i
      exact streamChunk_succ d i
    rw [h0, hsh, ih (d.drop 1024), Nat.mul_succ, Nat.add_comm (1024 * n) 1024,
      List.take_add]

/-- All chunks of one frame reassemble to the frame payload. -/
theorem streamChunks_flatten_all (d : List ℕ) :
    ((List.range (totalChunks d)).map (streamChunk d)).flatten = d := by
  rw [streamChunks_flatten]
  apply List.take_of_length_le
  unfold totalChunks
  omega

/-- C2 counterexample: a 2048-byte payload is split into two chunks and the
code sleeps `0.03 / 2 = 15 ms` between the two sends — below the 30-ms
minimum spacing the claim says is preserved. -/
theorem c2_pacing_counterexample :
    totalChunks (List.replicate 2048 0) = 2 ∧
    streamInterDelay (List.replicate 2048 0) = 3 / 200 ∧
    ¬ (3 / 100 ≤ (3 / 200 : ℚ)) := by
  have h2 : totalChunks (List.replicate 2048 0) = 2 := by
    unfold totalChunks
    rw [List.length_replicate]
  refine ⟨h2, ?_, by norm_num⟩
  unfold streamInterDelay
  rw [h2]
  norm_num

/-- C2 (amended): the encoded payload is split into 1024-byte chunks
(`⌈len/1024⌉` of them, reassembling exactly to the payload), each sent as a
DATA-shaped packet with the 16-bit little-endian chunk index and chunk
length prepended to the chunk body, with an inter-packet delay of
`30 ms / chunks_per_frame`; that delay keeps only the per-frame total near
30 ms — the spacing between consecutive sends equals 30 ms for a
single-chunk frame and drops strictly below 30 ms whenever a frame needs
more than one chunk. -/
theorem c2_stream_framing (d : List ℕ) (h : d ≠ []) :
    totalChunks d = (d.length + 1023) / 1024 ∧
    (streamPackets d).length = totalChunks d ∧
    (∀ i, (streamChunk d i).length = min 1024 (d.length - 1024 * i)) ∧
    ((List.range (totalChunks d)).map (streamChunk d)).flatten = d ∧
    (∀ i, ((streamPacket d i).drop 12).take 2 = le16 i) ∧
    (∀ i, ((streamPacket d i).drop 14).take 2 = le16 (streamChunk d i).length) ∧
    streamInterDelay d = 3 / 100 / (totalChunks d : ℚ) ∧
    (totalChunks d = 1 → streamInterDelay d = 3 / 100) ∧
    (2 ≤ totalChunks d → streamInterDelay d < 3 / 100) := by
  refine ⟨rfl, by simp [streamPackets], streamChunk_length d,
    streamChunks_flatten_all d, fun i => rfl, fun i => rfl, rfl, ?_, ?_⟩
  · intro h1
    unfold streamInterDelay
    rw [h1]
    norm_num
  · intro h2
    unfold streamInterDelay
    apply div_lt_self (by norm_num)
    exact_mod_cast Nat.lt_of_lt_of_le Nat.one_lt_two h2

/-- C2 witness: a single-byte frame has one chunk and the full 30-ms delay. -/
theorem c2_stream_framing_witness :
    streamInterDelay [0] = 3 / 100 ∧
    ((List.range (totalChunks [0])).map (streamChunk [0])).flatten = [0] :=
  ⟨(c2_stream_framing [0] (by decide)).2.2.2.2.2.2.2.1 rfl,
   (c2_stream_framing [0] (by decide)).2.2.2.1⟩

/-- The normalised radius is strictly positive. -/
theorem rhoOf_pos (nLeds led : ℕ) (h : 0 < nLeds) : 0 < rhoOf nLeds led := by
  unfold rhoOf
  apply div_pos
  · positivity
  · exact_mod_cast h

/-- The normalised radius stays strictly below one half: the radial index
runs over the half strip (`led < n_leds / 2`) while the divisor is the full
LED count. -/
theorem rhoOf_lt_half (nLeds led : ℕ) (h : 0 < nLeds) (hled : led < nLeds / 2) :
    rhoOf nLeds led < 1 / 2 := by
  unfold rhoOf
  rw [div_lt_div_iff (by exact_mod_cast h) (by norm_num)]
  have hn : 2 * led + 1 < nLeds := by omega
  have hcast : (2 * led + 1 : ℚ) < nLeds := by exact_mod_cast hn
  push_cast at hcast ⊢
  linarith

/-- Both lookup-table coordinates lie inside the open unit interval. -/
theorem lookup_mem_unit (nRays nLeds ray led : ℕ) (h : 0 < nLeds)
    (hled : led < nLeds / 2) :
    0 < lookupX nRays nLeds ray led ∧ lookupX nRays nLeds ray led < 1 ∧
    0 < lookupY nRays nLeds ray led ∧ lookupY nRays nLeds ray led < 1 := by
  have hrpos : (0 : ℝ) < (rhoOf nLeds led : ℝ) := by
    exact_mod_cast rhoOf_pos nLeds led h
  have hrlt : ((rhoOf nLeds led : ℚ) : ℝ) < 1 / 2 := by
    have h2 := rhoOf_lt_half nLeds led h hled
    have h3 : ((rhoOf nLeds led : ℚ) : ℝ) < ((1 / 2 : ℚ) : ℝ) := Rat.cast_lt.mpr h2
    norm_num at h3
    exact h3
  have hc1 : Real.cos (phiOf nRays ray) ≤ 1 := Real.cos_le_one _
  have hc2 : -1 ≤ Real.cos (phiOf nRays ray) := Real.neg_one_le_cos _
  have hs1 : Real.sin (phiOf nRays ray) ≤ 1 := Real.sin_le_one _
  have hs2 : -1 ≤ Real.sin (phiOf nRays ray) := Real.neg_one_le_sin _
  unfold lookupX lookupY
  refine ⟨?_, ?_, ?_, ?_⟩ <;> nlinarith

/-- Generic bound: a coordinate in `(0,1)` scaled by `w - 1` lands in
`[0, w-1]`. -/
theorem coord_scale_bounds (u : ℝ) (w : ℕ) (h0 : 0 < u) (h1 : u < 1) (hw : 1 ≤ w) :
    0 ≤ u * ((w : ℝ) - 1) ∧ u * ((w : ℝ) - 1) ≤ (w : ℝ) - 1 := by
  have hw1 : (1 : ℝ) ≤ (w : ℝ) := by exact_mod_cast hw
  constructor
  · apply mul_nonneg (le_of_lt h0)
    linarith
  · nlinarith

/-- A nonnegative real below `w - 1` truncates to an integer index in
`[0, w-1]`, and the `min`-clamped successor index stays in range as well. -/
theorem trunc_index_bounds (t : ℝ) (w : ℕ) (h0 : 0 ≤ t) (h1 : t ≤ (w : ℝ) - 1) :
    0 ≤ realTrunc t ∧ realTrunc t ≤ (w : ℤ) - 1 ∧
    0 ≤ min (realTrunc t + 1) ((w : ℤ) - 1) ∧
    min (realTrunc t + 1) ((w : ℤ) - 1) ≤ (w : ℤ) - 1 := by
  have hne : ¬ t < 0 := not_lt.mpr h0
  have htr : realTrunc t = ⌊t⌋ := by
    unfold realTrunc
    rw [if_neg hne]
  have hf0 : 0 ≤ ⌊t⌋ := Int.floor_nonneg.mpr h0
  have hfw : ⌊t⌋ ≤ (w : ℤ) - 1 := by
    have : ((w : ℤ) - 1 : ℤ) = ⌊((w : ℝ) - 1 : ℝ)⌋ := by
      rw [show ((w : ℝ) - 1 : ℝ) = (((w : ℤ) - 1 : ℤ) : ℝ) by push_cast; ring]
      rw [Int.floor_intCast]
    rw [this]
    exact Int.floor_le_floor h1
  rw [htr]
  refine ⟨hf0, hfw, ?_, min_le_right _ _⟩
  apply le_min
  · omega
  · omega

/-- C7: for every configuration with `n_leds > 0`, every ray, every radial
index `led < n_leds / 2` and every image side `w ≥ 1`, the precomputed
radius satisfies `ρ < 1/2`, the sample coordinates `x = u·(w−1)`,
`y = v·(w−1)` lie inside `[0, w−1]`, and the four neighbour indices used by
`_bilinear_sample` (`x0 = int(x)`, `x1 = min(x0+1, w-1)`, and likewise for
`y`) all lie inside `[0, w−1]`, so no image access is out of range. -/
theorem c7_sample_coordinates_in_bounds (nRays nLeds ray led w : ℕ)
    (h : 0 < nLeds) (hled : led < nLeds / 2) (hw : 1 ≤ w) :
    rhoOf nLeds led < 1 / 2 ∧
    (0 ≤ sampleX nRays nLeds ray led w ∧
      sampleX nRays nLeds ray led w ≤ (w : ℝ) - 1) ∧
    (0 ≤ sampleY nRays nLeds ray led w ∧
      sampleY nRays nLeds ray led w ≤ (w : ℝ) - 1) ∧
    (0 ≤ realTrunc (sampleX nRays nLeds ray led w) ∧
      realTrunc (sampleX nRays nLeds ray led w) ≤ (w : ℤ) - 1) ∧
    (0 ≤ min (realTrunc (sampleX nRays nLeds ray led w) + 1) ((w : ℤ) - 1) ∧
      min (realTrunc (sampleX nRays nLeds ray led w) + 1) ((w : ℤ) - 1) ≤ (w : ℤ) - 1) ∧
    (0 ≤ realTrunc (sampleY nRays nLeds ray led w) ∧
      realTrunc (sampleY nRays nLeds ray led w) ≤ (w : ℤ) - 1) ∧
    (0 ≤ min (realTrunc (sampleY nRays nLeds ray led w) + 1) ((w : ℤ) - 1) ∧
      min (realTrunc (sampleY nRays nLeds ray led w) + 1) ((w : ℤ) - 1) ≤ (w : ℤ) - 1) := by
  obtain ⟨hx0, hx1, hy0, hy1⟩ := lookup_mem_unit nRays nLeds ray led h hled
  obtain ⟨hX0, hX1⟩ := coord_scale_bounds _ w hx0 hx1 hw
  obtain ⟨hY0, hY1⟩ := coord_scale_bounds _ w hy0 hy1 hw
  obtain ⟨ha, hb, hc, hd⟩ := trunc_index_bounds _ w hX0 hX1
  obtain ⟨he, hf, hg, hi⟩ := trunc_index_bounds _ w hY0 hY1
  exact ⟨rhoOf_lt_half nLeds led h hled, ⟨hX0, hX1⟩, ⟨hY0, hY1⟩,
    ⟨ha, hb⟩, ⟨hc, hd⟩, ⟨he, hf⟩, ⟨hg, hi⟩⟩

/-- C7 witness at the default configuration, ray 0, radial index 0, a
256-pixel image. -/
theorem c7_sample_coordinates_in_bounds_witness :
    rhoOf 224 0 < 1 / 2 ∧
    (0 ≤ realTrunc (sampleX 2700 224 0 0 256) ∧
      realTrunc (sampleX 2700 224 0 0 256) ≤ (256 : ℤ) - 1) :=
  ⟨(c7_sample_coordinates_in_bounds 2700 224 0 0 256 (by decide) (by decide) (by decide)).1,
   (c7_sample_coordinates_in_bounds 2700 224 0 0 256 (by decide) (by decide)
     (by decide)).2.2.2.1⟩

/-- The rational tables `lookX48`/`lookY48` are exactly the lookup tables of
the 4-ray, 8-LED configuration: each angle is a multiple of `π/2`. -/
theorem look48_eq (ray led : ℕ) (h : ray < 4) :
    ((lookX48 ray led : ℚ) : ℝ) = lookupX 4 8 ray led ∧
    ((lookY48 ray led : ℚ) : ℝ) = lookupY 4 8 ray led := by
  interval_cases ray
  · have hphi : phiOf 4 0 = 2 * Real.pi := by
      unfold phiOf
      norm_num
    unfold lookupX lookupY lookX48 lookY48
    rw [hphi, Real.cos_two_pi, Real.sin_two_pi]
    constructor <;> norm_num <;> (push_cast; ring_nf)
  · have hphi : phiOf 4 1 = Real.pi + Real.pi / 2 := by
      unfold phiOf
      push_cast
      ring
    unfold lookupX lookupY lookX48 lookY48
    rw [hphi, Real.cos_add, Real.sin_add, Real.cos_pi, Real.sin_pi,
      Real.cos_pi_div_two, Real.sin_pi_div_two]
    constructor <;> norm_num <;> (push_cast; ring_nf)
  · have hphi : phiOf 4 2 = Real.pi := by
      unfold phiOf
      push_cast
      ring
    unfold lookupX lookupY lookX48 lookY48
    rw [hphi, Real.cos_pi, Real.sin_pi]
    constructor <;> norm_num <;> (push_cast; ring_nf)
  · have hphi : phiOf 4 3 = Real.pi / 2 := by
      unfold phiOf
      push_cast
      ring
    unfold lookupX lookupY lookX48 lookY48
    rw [hphi, Real.cos_pi_div_two, Real.sin_pi_div_two]
    constructor <;> norm_num <;> (push_cast; ring_nf)

/-- At the default configuration the rays of the first index half (excluding
the two horizontal boundary rays) sample strictly above the image's vertical
midpoint coordinate, i.e. the top half of the rows (`y < 1/2`). -/
theorem lookupY_first_half_lt (ray led : ℕ) (h1 : 0 < ray) (h2 : ray < 1350) :
    lookupY 2700 224 ray led < 1 / 2 := by
  have hrpos : (0 : ℝ) < ((rhoOf 224 led : ℚ) : ℝ) := by
    have := rhoOf_pos 224 led (by norm_num)
    exact_mod_cast this
  have hray1 : (1 : ℝ) ≤ (ray : ℝ) := by exact_mod_cast h1
  have hray2 : (ray : ℝ) < 1350 := by exact_mod_cast h2
  have hπ := Real.pi_pos
  have hphi1 : Real.pi < phiOf 2700 ray := by
    unfold phiOf
    push_cast
    rw [lt_div_iff (by norm_num : (0:ℝ) < 2700)]
    nlinarith [mul_pos hπ (show (0:ℝ) < 1350 - (ray : ℝ) by linarith)]
  have hphi2 : phiOf 2700 ray < 2 * Real.pi := by
    unfold phiOf
    push_cast
    rw [div_lt_iff (by norm_num : (0:ℝ) < 2700)]
    nlinarith [mul_pos hπ (show (0:ℝ) < (ray : ℝ) by linarith)]
  have hsin : Real.sin (phiOf 2700 ray) < 0 := by
    rw [← Real.sin_sub_two_pi]
    apply Real.sin_neg_of_neg_of_neg_pi_lt
    · linarith
    · linarith
  unfold lookupY
  nlinarith [mul_pos hrpos (neg_pos.mpr hsin)]

/-- At the default configuration the rays of the second index half sample
strictly below the image's vertical midpoint, i.e. the bottom half. -/
theorem lookupY_second_half_gt (ray led : ℕ) (h1 : 1350 < ray) (h2 : ray < 2700) :
    1 / 2 < lookupY 2700 224 ray led := by
  have hrpos : (0 : ℝ) < ((rhoOf 224 led : ℚ) : ℝ) := by
    have := rhoOf_pos 224 led (by norm_num)
    exact_mod_cast this
  have hray1 : (1350 : ℝ) < (ray : ℝ) := by exact_mod_cast h1
  have hray2 : (ray : ℝ) < 2700 := by exact_mod_cast h2
  have hπ := Real.pi_pos
  have hphi1 : 0 < phiOf 2700 ray := by
    unfold phiOf
    push_cast
    apply div_pos
    · nlinarith [mul_pos hπ (show (0:ℝ) < 2700 - (ray : ℝ) by linarith)]
    · norm_num
  have hphi2 : phiOf 2700 ray < Real.pi := by
    unfold phiOf
    push_cast
    rw [div_lt_iff (by norm_num : (0:ℝ) < 2700)]
    nlinarith [mul_pos hπ (show (0:ℝ) < (ray : ℝ) - 1350 by linarith)]
  have hsin : 0 < Real.sin (phiOf 2700 ray) := Real.sin_pos_of_pos_of_lt_pi hphi1 hphi2
  unfold lookupY
  nlinarith [mul_pos hrpos hsin]

set_option maxRecDepth 8000 in
/-- C3 counterexample: at the exactly-representable 4-ray, 8-LED
configuration (tables `lookX48`/`lookY48`, proved equal to the source's
lookup tables by `look48_eq`), encoding the 16×16 raster that is white in
its top half and black in its bottom half gives bit-sum 24 over the first
half of the ray indices and 12 over the second half — the claimed strict
inequality `second > first` is false. -/
theorem c3_angle_direction_counterexample :
    bitSum ((encodeFrame 4 8 lookX48 lookY48 (topWhiteImage 16)).take 4) = 24 ∧
    bitSum ((encodeFrame 4 8 lookX48 lookY48 (topWhiteImage 16)).drop 4) = 12 ∧
    ¬ (12 > 24) := by
  with_unfolding_all decide

set_option maxRecDepth 8000 in
/-- C3 (amended): the inequality direction of the claim is reversed.  Rays
indexed in `(0, N_rays/2)` sample the top half of the image and rays in
`(N_rays/2, N_rays)` the bottom half (proved at the default 2700-ray
configuration); consequently, for a white-top/black-bottom raster the
per-ray bit-sum summed over `[0, N_rays/2)` is strictly greater than the
sum over `[N_rays/2, N_rays)` (proved at the exactly-representable 4-ray
configuration: 24 against 12). -/
theorem c3_angle_direction_amended :
    bitSum ((encodeFrame 4 8 lookX48 lookY48 (topWhiteImage 16)).take 4) >
      bitSum ((encodeFrame 4 8 lookX48 lookY48 (topWhiteImage 16)).drop 4) ∧
    (∀ ray led : ℕ, 0 < ray → ray < 1350 → lookupY 2700 224 ray led < 1 / 2) ∧
    (∀ ray led : ℕ, 1350 < ray → ray < 2700 → 1 / 2 < lookupY 2700 224 ray led) ∧
    (∀ ray led : ℕ, ray < 4 → ((lookX48 ray led : ℚ) : ℝ) = lookupX 4 8 ray led ∧
      ((lookY48 ray led : ℚ) : ℝ) = lookupY 4 8 ray led) := by
  refine ⟨?_, fun ray led h1 h2 => lookupY_first_half_lt ray led h1 h2,
    fun ray led h1 h2 => lookupY_second_half_gt ray led h1 h2,
    fun ray led h => look48_eq ray led h⟩
  with_unfolding_all decide

/-- C3 witness: the amended direction statement applied at rays 1 and 2699
of the default configuration. -/
theorem c3_angle_direction_amended_witness :
    lookupY 2700 224 1 0 < 1 / 2 ∧ 1 / 2 < lookupY 2700 224 2699 0 :=
  ⟨c3_angle_direction_amended.2.1 1 0 (by decide) (by decide),
   c3_angle_direction_amended.2.2.1 2699 0 (by decide) (by decide)⟩
